import Mathlib

/-!
Verification development for the skypad backend's match orchestrator and
code-execution pipeline.  Definitions are shallow embeddings of the
JavaScript sources:

* `src/routes/problem.js` — output normalization (`preprocessOutput`),
  the sandbox dispatch (`executeCode`, `executeInterpreted`,
  `executeCompiled`) and the per-test-case runner of `POST /run`;
* `src/routes/challenges.js` — the challenge-room HTTP handlers
  (create/join/ready/submit) and `checkAndDetermineWinner`;
* `src/socketServer.js` — lobby timers, room expiry, the socket join
  handler, the ready countdown and the periodic timeout sweep.

Wall-clock time is passed explicitly as a `Nat` of milliseconds; process
spawning (`spawnSync`) is abstracted by an environment record supplying
the outcome of each spawn, and file-system effects are recorded as an
explicit event trace.
-/

namespace Skypad

/-! ## Output normalizer (`preprocessOutput`, problem.js lines 235-243)

The JS implementation is a chain of `String.prototype` operations:
`trim()`, `replace(/\r\n/g,'\n')`, `replace(/\r/g,'\n')`,
`replace(/\n+$/g,'')`, `replace(/\s+$/gm,'')`.  We embed it character
by character over `List Char`. -/

/-- The character class `\s` of JavaScript regular expressions (which for
modern JS coincides with the set removed by `String.prototype.trim`):
space, tab, LF, VT, FF, CR, NBSP, the Unicode Zs spaces, the line and
paragraph separators, and the BOM. -/
def isJsWS (c : Char) : Bool :=
  let n := c.toNat
  n = 0x20 || n = 0x9 || n = 0xa || n = 0xb || n = 0xc || n = 0xd ||
  n = 0xa0 || n = 0x1680 || (0x2000 ≤ n && n ≤ 0x200a) ||
  n = 0x2028 || n = 0x2029 || n = 0x202f || n = 0x205f || n = 0x3000 ||
  n = 0xfeff

/-- `replace(/\r\n/g, '\n')`: every CRLF pair becomes a single LF. -/
def replCRLF : List Char → List Char
  | [] => []
  | '\r' :: '\n' :: rest => '\n' :: replCRLF rest
  | c :: rest => c :: replCRLF rest

/-- `replace(/\r/g, '\n')`: every remaining CR becomes LF. -/
def replCR (l : List Char) : List Char :=
  l.map fun c => if c = '\r' then '\n' else c

/-- Leading-whitespace removal (the left half of `trim()`). -/
def trimLeft (l : List Char) : List Char := l.dropWhile isJsWS

/-- Trailing-whitespace removal (the right half of `trim()`). -/
def trimRight (l : List Char) : List Char :=
  (l.reverse.dropWhile isJsWS).reverse

/-- `String.prototype.trim()`. -/
def jsTrim (l : List Char) : List Char := trimRight (trimLeft l)

/-- `replace(/\n+$/g, '')`: drop trailing newlines. -/
def dropTrailNl (l : List Char) : List Char :=
  (l.reverse.dropWhile (fun c => c = '\n')).reverse

/-- Core of `replace(/\s+$/gm, '')`.  A character of the input is deleted
exactly when it is whitespace and every character between it and some
line-end position (a position immediately before an `'\n'`, or the end of
the string) is whitespace — this is what the global multiline regex
removes, `\s` being allowed to cross newlines.  The second component is
the reachability flag for the position at the head of the argument:
`true` iff the argument starts with `'\n'`, is empty, or starts with a
whitespace run that reaches such a position. -/
def stripGo : List Char → List Char × Bool
  | [] => ([], true)
  | c :: cs =>
    let p := stripGo cs
    (if isJsWS c && p.2 then p.1 else c :: p.1,
     c = '\n' || (isJsWS c && p.2))

/-- `replace(/\s+$/gm, '')`. -/
def stripTrailWS (l : List Char) : List Char := (stripGo l).1

/-- The whole normalization chain of `preprocessOutput` at `List Char`
level, in the source's order of operations. -/
def preprocessChars (l : List Char) : List Char :=
  stripTrailWS (dropTrailNl (replCR (replCRLF (jsTrim l))))

/-- `preprocessOutput` (problem.js lines 235-243).  `if (!output) return ''`
is the guard for the empty (falsy) string. -/
def preprocessOutput (s : String) : String :=
  if s = "" then "" else ⟨preprocessChars s.data⟩


/-! ## Execution sandbox (`problem.js` lines 245-474)

`spawnSync` and the file system are external to the program: each spawn
outcome is supplied by an environment record `SbxEnv`, and file-system
activity is recorded as a trace of `SbxEvent`s.  The `uuid` argument is
the value `crypto.randomUUID()` returned for the invocation. -/

/-- What the program observes of one `spawnSync` call: the optional
spawn-level error (`ETIMEDOUT` or another failure, with its message),
the exit status (`none` models JS `null`), and the captured streams. -/
structure SpawnOutcome where
  errTimedOut : Bool
  errMsg : Option String
  status : Option Int
  stdout : String
  stderr : String
deriving DecidableEq, Repr

/-- `result.error` is present. -/
def SpawnOutcome.hasErr (r : SpawnOutcome) : Bool := r.errMsg.isSome || r.errTimedOut

/-- The result object each execute function returns:
`{error?, stderr, stdout}` with `error` one of `'Time Limit Exceeded'`,
`'Runtime Error'`, `'Compilation Error'`. -/
structure ExecResult where
  error : Option String
  stderr : String
  stdout : String
deriving DecidableEq, Repr

/-- File-system / process trace events of one request. -/
inductive SbxEvent
  | fileWrite (path : String)
  | compileRun (lang : String)
  | procRun (input : String)
  | fileDeleted (path : String)
  | fileDeleteFailed (path : String)
deriving DecidableEq, Repr

/-- The environment: outcomes of the interpreter spawn, the compiler
spawn and the compiled-binary spawn (the latter two per stdin input),
plus which deletions fail. -/
structure SbxEnv where
  interp : String → SpawnOutcome
  compile : SpawnOutcome
  run : String → SpawnOutcome
  deleteFails : String → Bool

/-- `TEMP_DIR = path.join(process.cwd(), "temp")` — a single directory,
created once at module load and shared by every invocation. -/
def TEMP_DIR : String := "temp"

/-- Substring test over char lists (JS `String.prototype.includes`). -/
def startsWithChars : List Char → List Char → Bool
  | [], _ => true
  | _ :: _, [] => false
  | p :: ps, c :: cs => p = c && startsWithChars ps cs

/-- Does `pat` occur somewhere in the list? -/
def occursIn (pat : List Char) : List Char → Bool
  | [] => startsWithChars pat []
  | c :: cs => startsWithChars pat (c :: cs) || occursIn pat cs

/-- JS `s.includes(needle)`. -/
def strIncludes (s needle : String) : Bool := occursIn needle.data s.data

/-- The source-file path `executeCompiled` writes to, per language:
Java always uses the fixed name `Main.java` inside the shared
`TEMP_DIR`; C and C++ use the per-invocation `uuid`. -/
def sourcePathFor (language uuid : String) : String :=
  if language = "java" then TEMP_DIR ++ "/Main.java"
  else if language = "c" then TEMP_DIR ++ "/" ++ uuid ++ ".c"
  else TEMP_DIR ++ "/" ++ uuid ++ ".cpp"

/-- The compiled-artifact path per language. -/
def artifactPathFor (language uuid : String) : String :=
  if language = "java" then TEMP_DIR ++ "/Main.class"
  else TEMP_DIR ++ "/" ++ uuid ++ ".out"

/-- The `filesToClean` list `executeCompiled` registers for the finally
block (source file plus compiled artifact / class file). -/
def filesToClean (language uuid : String) : List String :=
  [sourcePathFor language uuid, artifactPathFor language uuid]

/-- The finally-block cleanup: attempt to delete every registered file;
a failing deletion is logged (traced) and swallowed. -/
def cleanupTrace (env : SbxEnv) (files : List String) : List SbxEvent :=
  files.map fun f =>
    if env.deleteFails f then .fileDeleteFailed f else .fileDeleted f

/-- `executeInterpreted` (problem.js lines 246-276): hand the source to
the interpreter with the test input piped to stdin. -/
def executeInterpreted (env : SbxEnv) (input : String) :
    ExecResult × List SbxEvent :=
  let r := env.interp input
  let tr : List SbxEvent := [.procRun input]
  if r.hasErr then
    if r.errTimedOut then
      (⟨some "Time Limit Exceeded", "", ""⟩, tr)
    else
      (⟨some "Runtime Error", (r.errMsg.getD ""), ""⟩, tr)
  else if !(r.status = some 0) && !(r.status = none) then
    (⟨some "Runtime Error", r.stderr, r.stdout⟩, tr)
  else
    (⟨none, r.stderr, r.stdout⟩, tr)

/-- The `compileResult.stderr || compileResult.error?.message ||
'Compilation failed'` fallback chain. -/
def compileErrMsg (cr : SpawnOutcome) : String :=
  if cr.stderr ≠ "" then cr.stderr
  else match cr.errMsg with
    | some m => m
    | none => "Compilation failed"

/-- `executeCompiled` (problem.js lines 279-369).  The Java main-class
validation precedes any file write; source write, one compile, one run;
the registered files are cleaned in a finally block on every path. -/
def executeCompiled (env : SbxEnv) (language code input uuid : String) :
    ExecResult × List SbxEvent :=
  if language = "java" && !(strIncludes code "public class Main") then
    (⟨some "Compilation Error", "Java code must include \x22public class Main\x22", ""⟩,
     cleanupTrace env [])
  else
    let files := filesToClean language uuid
    let body : ExecResult × List SbxEvent :=
      let tr0 : List SbxEvent := [.fileWrite (sourcePathFor language uuid)]
      let cr := env.compile
      let tr1 := tr0 ++ [.compileRun language]
      if cr.hasErr || !(cr.status = some 0) then
        (⟨some "Compilation Error", compileErrMsg cr, ""⟩, tr1)
      else
        let er := env.run input
        let tr2 := tr1 ++ [.procRun input]
        if er.hasErr then
          if er.errTimedOut then (⟨some "Time Limit Exceeded", "", ""⟩, tr2)
          else (⟨some "Runtime Error", (er.errMsg.getD ""), ""⟩, tr2)
        else if !(er.status = some 0) && !(er.status = none) then
          (⟨some "Runtime Error", er.stderr, er.stdout⟩, tr2)
        else
          (⟨none, er.stderr, er.stdout⟩, tr2)
    (body.1, body.2 ++ cleanupTrace env files)

/-- ASCII lowering, the fragment of `String.prototype.toLowerCase`
relevant to language tags. -/
def lowerChar (c : Char) : Char :=
  if 'A' ≤ c && c ≤ 'Z' then Char.ofNat (c.toNat + 32) else c

/-- `language.toLowerCase()` on ASCII language tags. -/
def lowerStr (s : String) : String := ⟨s.data.map lowerChar⟩

/-- The supported-language whitelist of `executeCode`. -/
def supportedLanguages : List String :=
  ["python", "javascript", "c", "cpp", "c++", "java"]

/-- `executeCode` (problem.js lines 372-391): dispatch on the lowered
language tag; anything outside the whitelist yields a Runtime Error
result instead of an exception. -/
def executeCode (env : SbxEnv) (language code input uuid : String) :
    ExecResult × List SbxEvent :=
  let normalizedLang := lowerStr language
  if !(supportedLanguages.contains normalizedLang) then
    (⟨some "Runtime Error", "Unsupported language: " ++ language, ""⟩, [])
  else if normalizedLang = "python" || normalizedLang = "javascript" then
    executeInterpreted env input
  else
    executeCompiled env (if normalizedLang = "c++" then "cpp" else normalizedLang)
      code input uuid

/-- One test case as stored on the problem (`input`, `expectedOutput`). -/
structure TestCase where
  input : String
  expectedOutput : String
deriving DecidableEq, Repr

/-- The per-case verdict object built by `executeTestCase` in
`POST /run` (problem.js lines 415-447; `executionTime` is wall-clock
and not modelled). -/
structure Verdict where
  input : String
  expectedOutput : String
  actualOutput : String
  passed : Bool
deriving DecidableEq, Repr

/-- `executeTestCase` (problem.js lines 415-447): run the code on the
case's input; a structured execution error becomes a failing verdict
carrying the error annotation; otherwise pass iff the normalized
outputs agree exactly. -/
def executeTestCase (env : SbxEnv) (language code uuid : String)
    (tc : TestCase) : Verdict × List SbxEvent :=
  let r := executeCode env language code tc.input uuid
  match (r.1).error with
  | some e =>
    (⟨tc.input, tc.expectedOutput,
      e ++ (if (r.1).stderr ≠ "" then ": " ++ (r.1).stderr else ""),
      false⟩, r.2)
  | none =>
    let actualOutput := (r.1).stdout
    (⟨tc.input, tc.expectedOutput, actualOutput,
      preprocessOutput actualOutput == preprocessOutput tc.expectedOutput⟩, r.2)

/-- The per-case map of `POST /run`
(`problem.sampleTestCases.map(executeTestCase)` and likewise for the
hidden cases): each case is one full, independent `executeCode`
invocation, with a fresh `uuid` per invocation. -/
def runTestCases (env : SbxEnv) (language code : String)
    (uuids : Nat → String) : List TestCase → Nat → List Verdict × List SbxEvent
  | [], _ => ([], [])
  | tc :: rest, i =>
    let r := executeTestCase env language code (uuids i) tc
    let rs := runTestCases env language code uuids rest (i + 1)
    (r.1 :: rs.1, r.2 ++ rs.2)

/-- Number of compiler invocations recorded in a trace. -/
def compileCount (tr : List SbxEvent) : Nat :=
  (tr.filter fun e => match e with | .compileRun _ => true | _ => false).length

/-- Paths whose deletion was attempted (successfully or not). -/
def deleteAttempts (tr : List SbxEvent) : List String :=
  tr.filterMap fun e => match e with
    | .fileDeleted p => some p
    | .fileDeleteFailed p => some p
    | _ => none

/-! ## Challenge rooms (`challenges.js`, `socketServer.js`)

The room document of the Mongo collection, the HTTP handlers of
`challenges.js`, the socket join handler, the lobby timer registry and
the 30-second timeout sweep of `socketServer.js`.  Wall-clock instants
(`Date.now()` values) are `Nat` milliseconds; user ids are `Nat`.
Each handler is embedded as an atomic step from a room state to a room
state plus the broadcast events it emits. -/

inductive RoomStatus
  | waiting | starting | inProgress | finished | expired
deriving DecidableEq, Repr

/-- One entry of the append-only `submissions` array.  `testResults`
records, per hidden test case, whether the case passed (the rest of the
stored verdict object is irrelevant to room evolution). -/
structure RSubmission where
  userId : Nat
  result : String
  testResults : List Bool
deriving DecidableEq, Repr

/-- The ChallengeRoom document, plus `timerSet`, which models whether
the global `roomTimers` map of `socketServer.js` currently holds a live
lobby timer for this room.  `problemDifficulty` is the `difficulty`
field of the referenced problem (read-only here). -/
structure Room where
  hostUserId : Nat
  opponentUserId : Option Nat
  status : RoomStatus
  hostReady : Bool
  opponentReady : Bool
  winnerId : Option Nat
  submissions : List RSubmission
  lobbyExpiresAt : Nat
  startedAt : Option Nat
  finishedAt : Option Nat
  matchDuration : Option Nat
  problemDifficulty : String
  timerSet : Bool
deriving DecidableEq, Repr

/-- Broadcast events of the notification channel. -/
inductive REvent
  | opponentJoined
  | countdownTick (n : Nat)
  | matchStarted
  | matchFinished (winnerId : Option Nat) (winType : String)
  | roomExpired
deriving DecidableEq, Repr

/-- `getTimeLimitForDifficulty` (challenges.js lines 941-948), seconds. -/
def getTimeLimitForDifficulty (difficulty : String) : Nat :=
  if difficulty = "easy" then 15 * 60
  else if difficulty = "medium" then 30 * 60
  else if difficulty = "hard" then 60 * 60
  else 30 * 60

/-- Passed hidden cases of one submission
(`testResults?.filter(t => t.passed).length || 0`). -/
def passCount (s : RSubmission) : Nat := (s.testResults.filter id).length

/-- `getBestSubmission` (challenges.js lines 998-1005): `reduce` keeping
the submission with strictly more passed cases (the first maximum). -/
def getBestSubmission : List RSubmission → Option RSubmission
  | [] => none
  | h :: t =>
    some (t.foldl (fun best cur => if passCount cur > passCount best then cur else best) h)

/-- The score the winner comparison uses: passed-case count of the best
submission of a list, `0` when the list is empty. -/
def bestScore (subs : List RSubmission) : Nat :=
  match getBestSubmission subs with
  | some b => passCount b
  | none => 0

/-- The submissions `checkAndDetermineWinner` attributes to the host. -/
def hostSubs (room : Room) : List RSubmission :=
  room.submissions.filter fun s => s.userId = room.hostUserId

/-- The submissions attributed to the opponent (none when the opponent
slot is empty: the JS comparison against `undefined` never matches). -/
def oppSubs (room : Room) : List RSubmission :=
  match room.opponentUserId with
  | some o => room.submissions.filter fun s => s.userId = o
  | none => []

/-- The difficulty-derived time limit `checkAndDetermineWinner` uses
(`getTimeLimitForDifficulty(problemData.difficulty.toLowerCase())`),
seconds. -/
def cadwTimeLimit (room : Room) : Nat :=
  getTimeLimitForDifficulty (lowerStr room.problemDifficulty)

/-- `currentDuration = Math.floor((new Date() - room.startedAt)/1000)`.
When `startedAt` is missing the JS arithmetic would be `NaN`; the
function is only ever invoked on `in_progress` rooms, which have
`startedAt`, so that case is mapped to elapsed time `0` here. -/
def cadwElapsed (room : Room) (now : Nat) : Nat :=
  (now - room.startedAt.getD now) / 1000

/-- `timeExpired || bothSubmitted`: note `bothSubmitted` is
`room.submissions.length >= 2`, the total length of the submission
array, whoever made the submissions. -/
def cadwShouldFinish (room : Room) (now : Nat) : Bool :=
  decide (cadwElapsed room now ≥ cadwTimeLimit room) ||
  decide (room.submissions.length ≥ 2)

/-- `checkAndDetermineWinner` (challenges.js lines 976-1051).  `now` is
`new Date()`.  Returns the updated room and the emitted
`match-finished` event. -/
def checkAndDetermineWinner (room : Room) (now : Nat) : Room × List REvent :=
  if cadwShouldFinish room now && room.winnerId = none then
    let hostScore := bestScore (hostSubs room)
    let opponentScore := bestScore (oppSubs room)
    let wpair : Option Nat × String :=
      if hostScore > opponentScore then (some room.hostUserId, "partial")
      else if opponentScore > hostScore then (room.opponentUserId, "partial")
      else (none, "timeout")
    let room' : Room :=
      { room with
        status := .finished
        finishedAt := some now
        matchDuration :=
          some (if cadwElapsed room now ≥ cadwTimeLimit room
                then cadwTimeLimit room else cadwElapsed room now)
        winnerId := if wpair.1.isSome then wpair.1 else room.winnerId }
    (room', [.matchFinished wpair.1 wpair.2])
  else
    (room, [])

/-- `POST /rooms/:roomId/submit` (challenges.js lines 692-793).  The
grading outcome is an input (`graded`: per hidden case, passed or not)
because `executeCode` of challenges.js is explicitly a mock using
`Math.random()`.  Guards run against the document read at the start of
the request; on full acceptance the winner fields are set; otherwise
`checkAndDetermineWinner` runs. -/
def submitOp (room : Room) (userId : Nat) (graded : List Bool) (now : Nat) :
    Room × List REvent :=
  if !(room.status = .inProgress) then (room, [])
  else if !(room.hostUserId = userId || room.opponentUserId = some userId) then (room, [])
  else if room.winnerId.isSome then (room, [])
  else
    let allPassed := graded.all id
    let result := if allPassed then "accepted" else "rejected"
    let room1 := { room with
      submissions := room.submissions ++ [⟨userId, result, graded⟩] }
    if allPassed && room1.winnerId = none then
      let room2 := { room1 with
        winnerId := some userId
        status := .finished
        finishedAt := some now
        matchDuration :=
          match room.startedAt with
          | some t => some ((now - t) / 1000)
          | none => room.matchDuration }
      (room2, [.matchFinished (some userId) "full"])
    else
      checkAndDetermineWinner room1 now

/-- The guard block of the submit handler (challenges.js lines 713-727)
evaluated on the request's snapshot. -/
def submitGuardsPass (snap : Room) (userId : Nat) : Bool :=
  snap.status = .inProgress &&
  (snap.hostUserId = userId || snap.opponentUserId = some userId) &&
  !snap.winnerId.isSome

/-- The submission object the handler pushes. -/
def subOf (userId : Nat) (graded : List Bool) : RSubmission :=
  ⟨userId, if graded.all id then "accepted" else "rejected", graded⟩

/-- The in-memory document state after the handler's mutations
(challenges.js lines 749-781), starting from the request's snapshot:
push the submission; on full acceptance with the snapshot's `winnerId`
unset, record the winner and finish; otherwise run
`checkAndDetermineWinner`. -/
def submitDoc (snap : Room) (userId : Nat) (graded : List Bool) (now : Nat) : Room :=
  let allPassed := graded.all id
  let room1 := { snap with submissions := snap.submissions ++ [subOf userId graded] }
  if allPassed && room1.winnerId = none then
    { room1 with
      winnerId := some userId
      status := .finished
      finishedAt := some now
      matchDuration :=
        match snap.startedAt with
        | some t => some ((now - t) / 1000)
        | none => snap.matchDuration }
  else (checkAndDetermineWinner room1 now).1

/-- Mongoose `save()` of a mutated submit document against the current
persisted state: the scalar paths the handler touches are `$set`
(last writer wins), the array push is appended; nothing is conditional
on the persisted document. -/
def savePersist (store doc : Room) (pushed : List RSubmission) : Room :=
  { store with
    winnerId := doc.winnerId
    status := doc.status
    finishedAt := doc.finishedAt
    matchDuration := doc.matchDuration
    submissions := store.submissions ++ pushed }

/-- The persisted room after the first request (snapshot `s0`) commits. -/
def raceAfterFirst (s0 : Room) (u1 : Nat) (g1 : List Bool) (t1 : Nat) : Room :=
  savePersist s0 (submitDoc s0 u1 g1 t1) [subOf u1 g1]

/-- The persisted room after the interleaving read₁, read₂, save₁,
save₂: both requests snapshot the same initial state `s0`, then commit
in order. -/
def raceFinal (s0 : Room) (u1 u2 : Nat) (g1 g2 : List Bool) (t1 t2 : Nat) : Room :=
  savePersist (raceAfterFirst s0 u1 g1 t1) (submitDoc s0 u2 g2 t2) [subOf u2 g2]

/-- The `isWinner` field of a submit response, computed from the
handler's own document (challenges.js line 786). -/
def responseIsWinner (doc : Room) (userId : Nat) : Bool :=
  doc.winnerId = some userId

/-! ## Derived notions and concrete fixtures -/

/-- A live match between host `10` and opponent `20`, no submissions
yet, started at instant `0`, on an easy problem created at instant
`-`5 minutes (lobby window ends at `300000`). -/
def inProgRoom : Room :=
  { hostUserId := 10
    opponentUserId := some 20
    status := .inProgress
    hostReady := true
    opponentReady := true
    winnerId := none
    submissions := []
    lobbyExpiresAt := 300000
    startedAt := some 0
    finishedAt := none
    matchDuration := none
    problemDifficulty := "easy"
    timerSet := false }

/-- `inProgRoom` after one rejected host submission that passed one of
two hidden cases. -/
def c3Room : Room :=
  { inProgRoom with submissions := [⟨10, "rejected", [true, false]⟩] }

/-- A live match whose two participants each made one rejected
submission (host passed two hidden cases, opponent one). -/
def c2Room : Room :=
  { inProgRoom with
    submissions := [⟨10, "rejected", [true, true, false]⟩,
                    ⟨20, "rejected", [true, false, false]⟩] }

/-- A spawn outcome of a clean, successful process. -/
def okSpawn : SpawnOutcome := ⟨false, none, some 0, "", ""⟩

/-- An environment whose compiler succeeds and whose compiled binary
prints `out`. -/
def okEnv : SbxEnv :=
  { interp := fun _ => ⟨false, none, some 0, "out", ""⟩
    compile := okSpawn
    run := fun _ => ⟨false, none, some 0, "out", ""⟩
    deleteFails := fun _ => false }

/-- An environment whose compiler exits nonzero with a diagnostic. -/
def compFailEnv : SbxEnv :=
  { interp := fun _ => okSpawn
    compile := ⟨false, none, some 1, "", "main.c:1: error"⟩
    run := fun _ => okSpawn
    deleteFails := fun _ => false }

/-- A char list ends in a JS-whitespace character. -/
def endsWS : List Char → Bool
  | [] => false
  | [c] => isJsWS c
  | _ :: c :: cs => endsWS (c :: cs)

def noWsNl : List Char → Bool
  | [] => true
  | [_] => true
  | c :: d :: cs => (!(isJsWS c && d = '\n')) && noWsNl (d :: cs)

/-- No JS-whitespace character immediately precedes a newline. -/
def headOkWS (l : List Char) : Prop :=
  ∀ c cs, l = c :: cs → isJsWS c = false

/-- No carriage return occurs in the list. -/
def noCR (l : List Char) : Prop := ∀ x ∈ l, ¬x = '\r'

/-- Claim C1: the claim asserts winner assignment is a write that
succeeds only if `winnerId` is unset and `status` is `in_progress` in
the persisted store, so under two concurrent fully-accepted submissions
the loser cannot overwrite `winnerId`.  The code checks the guards only
on the snapshot each request read: in the interleaving read₁, read₂,
save₁, save₂ of two accepted submissions (users `10` and `20`), both
guard checks pass on the shared initial snapshot, the first save
persists `winnerId = 10`, and the second save then overwrites it with
`20`; both responses report `isWinner` — contradicting the claim. -/
theorem c1_winner_overwrite_eval :
    submitGuardsPass inProgRoom 10 = true ∧
    submitGuardsPass inProgRoom 20 = true ∧
    (raceAfterFirst inProgRoom 10 [true] 5000).winnerId = some 10 ∧
    (raceAfterFirst inProgRoom 10 [true] 5000).status = .finished ∧
    (raceFinal inProgRoom 10 20 [true] [true] 5000 6000).winnerId = some 20 ∧
    (raceFinal inProgRoom 10 20 [true] [true] 5000 6000).submissions =
      [subOf 10 [true], subOf 20 [true]] ∧
    responseIsWinner (submitDoc inProgRoom 10 [true] 5000) 10 = true ∧
    responseIsWinner (submitDoc inProgRoom 20 [true] 6000) 20 = true := by
  decide

/-- Claim C3: the claim says the no-accept force-resolution fires only
when the time limit has elapsed or both participants have each
submitted; the code instead tests `room.submissions.length >= 2`.
Evaluation at the failing input: only the host has submitted (twice),
only ten seconds have elapsed of the 900-second easy limit, yet the
submit handler force-finishes the room and even names the host winner. -/
theorem c3_single_submitter_forces_finish :
    ((c3Room.submissions ++ [subOf 10 [false, false]]).all fun s => s.userId = 10) = true ∧
    (10000 - 0) / 1000 < getTimeLimitForDifficulty "easy" ∧
    (submitOp c3Room 10 [false, false] 10000).1.status = .finished ∧
    (submitOp c3Room 10 [false, false] 10000).1.winnerId = some 10 := by
  decide

/-- Claim C5, counterexample: for a two-case C submission the compiler
is invoked twice (once per test case), not at most once as the claim
states. -/
theorem c5_cex :
    compileCount (runTestCases okEnv "c" "int main(){return 0;}" (fun _ => "u")
      [⟨"1", "out"⟩, ⟨"2", "out"⟩] 0).2 = 2 ∧
    (runTestCases okEnv "c" "int main(){return 0;}" (fun _ => "u")
      [⟨"1", "out"⟩, ⟨"2", "out"⟩] 0).1.length = 2 := by
  decide

/-- Claim C6, counterexample: two Java invocations with distinct
per-invocation uuids still select the same source path
`temp/Main.java` inside the shared temp directory (and register the
same artifacts for cleanup), so concurrent Java executions share file
paths, contradicting the unique-workspace claim. -/
theorem c6_cex :
    ("aaaa" : String) ≠ "bbbb" ∧
    sourcePathFor "java" "aaaa" = sourcePathFor "java" "bbbb" ∧
    filesToClean "java" "aaaa" = filesToClean "java" "bbbb" ∧
    (executeCompiled okEnv "java" "public class Main {}" "x" "aaaa").2.head? =
      some (.fileWrite (TEMP_DIR ++ "/Main.java")) ∧
    (executeCompiled okEnv "java" "public class Main {}" "x" "bbbb").2.head? =
      some (.fileWrite (TEMP_DIR ++ "/Main.java")) := by
  decide

theorem string_affix_inj (p s u1 u2 : String)
    (h : p ++ u1 ++ s = p ++ u2 ++ s) : u1 = u2 := by
  have hd : p.data ++ u1.data ++ s.data = p.data ++ u2.data ++ s.data := by
    have := congrArg String.data h
    simpa [String.data_append] using this
  rw [List.append_assoc, List.append_assoc] at hd
  have h1 : u1.data ++ s.data = u2.data ++ s.data := List.append_cancel_left hd
  have h2 : u1.data = u2.data := List.append_cancel_right h1
  exact congrArg String.mk h2

theorem compileCount_append (l1 l2 : List SbxEvent) :
    compileCount (l1 ++ l2) = compileCount l1 + compileCount l2 := by
  simp [compileCount, List.filter_append]

theorem compileCount_cleanup (env : SbxEnv) (files : List String) :
    compileCount (cleanupTrace env files) = 0 := by
  induction files with
  | nil => rfl
  | cons f fs ih =>
    by_cases hf : env.deleteFails f <;>
      simp only [cleanupTrace, List.map, hf, if_pos, if_neg, Bool.false_eq_true,
        not_false_eq_true] <;>
      simp only [cleanupTrace] at ih <;>
      simp [compileCount, List.filter] at ih ⊢ <;> exact ih

theorem deleteAttempts_append (l1 l2 : List SbxEvent) :
    deleteAttempts (l1 ++ l2) = deleteAttempts l1 ++ deleteAttempts l2 := by
  simp [deleteAttempts, List.filterMap_append]

theorem deleteAttempts_cleanup (env : SbxEnv) (files : List String) :
    deleteAttempts (cleanupTrace env files) = files := by
  induction files with
  | nil => rfl
  | cons f fs ih =>
    simp only [cleanupTrace, List.map] at ih ⊢
    by_cases hf : env.deleteFails f <;>
      simp [hf, deleteAttempts, List.filterMap] at ih ⊢ <;>
      simpa [deleteAttempts] using ih

/-- `executeCode` on language tag `"c"` is exactly the compiled path. -/
theorem executeCode_c (env : SbxEnv) (code input uuid : String) :
    executeCode env "c" code input uuid = executeCompiled env "c" code input uuid := rfl

/-- `executeCode` on language tag `"cpp"` is exactly the compiled path. -/
theorem executeCode_cpp (env : SbxEnv) (code input uuid : String) :
    executeCode env "cpp" code input uuid = executeCompiled env "cpp" code input uuid := rfl

/-- `executeCode` on language tag `"java"` is exactly the compiled path. -/
theorem executeCode_java (env : SbxEnv) (code input uuid : String) :
    executeCode env "java" code input uuid =
      executeCompiled env "java" code input uuid := rfl

/-- The verdict builder passes the execution trace through unchanged. -/
theorem executeTestCase_trace (env : SbxEnv) (language code uuid : String)
    (tc : TestCase) :
    (executeTestCase env language code uuid tc).2 =
    (executeCode env language code tc.input uuid).2 := by
  unfold executeTestCase
  cases h : (executeCode env language code tc.input uuid).1.error <;> simp [h]

/-- Exactly one compiler invocation per `executeCompiled` call on C
source, C++ source, or Java source that passes the main-class
pre-check. -/
theorem compileCount_executeCompiled (env : SbxEnv) (lang code input uuid : String)
    (hl : lang = "c" ∨ lang = "cpp" ∨
      (lang = "java" ∧ strIncludes code "public class Main" = true)) :
    compileCount (executeCompiled env lang code input uuid).2 = 1 := by
  rcases hl with h | h | ⟨h, hm⟩ <;> subst h <;>
    simp only [executeCompiled] <;>
    split_ifs <;>
    first
      | (dsimp only; rw [compileCount_append, compileCount_cleanup]; rfl)
      | simp_all

/-- On a compile-failing environment, `executeCompiled` classifies the
whole invocation as a compilation error for C source, C++ source, or
Java source that passes the main-class pre-check. -/
theorem executeCompiled_compfail (env : SbxEnv) (lang code input uuid : String)
    (hl : lang = "c" ∨ lang = "cpp" ∨
      (lang = "java" ∧ strIncludes code "public class Main" = true))
    (hc : (env.compile.hasErr || !(env.compile.status = some 0)) = true) :
    (executeCompiled env lang code input uuid).1 =
      ⟨some "Compilation Error", compileErrMsg env.compile, ""⟩ := by
  rcases hl with h | h | ⟨h, hm⟩
  · subst h; simp [executeCompiled, hc]
  · subst h; simp [executeCompiled, hc]
  · subst h; simp [executeCompiled, hm, hc]

/-- Java source without `public class Main` is rejected by the
pre-check: the fixed validation result, no file write, no compiler
invocation, an empty trace. -/
theorem executeCompiled_java_noMain (env : SbxEnv) (code input uuid : String)
    (hm : strIncludes code "public class Main" = false) :
    executeCompiled env "java" code input uuid =
      (⟨some "Compilation Error",
        "Java code must include \x22public class Main\x22", ""⟩, []) := by
  simp [executeCompiled, hm, cleanupTrace]

/-! ## Claim C10 -/

/-- Claim C10: `executeCode` is total over its language argument — any
language whose lowercase form is outside the whitelist yields a
`Runtime Error` result with an `Unsupported language` message rather
than an exception, and `executeTestCase` of the run endpoint turns any
execution-error result into a failing verdict carrying the error
annotation. -/
theorem c10_error_handling :
    (∀ (env : SbxEnv) (language code input uuid : String),
      supportedLanguages.contains (lowerStr language) = false →
      executeCode env language code input uuid =
        (⟨some "Runtime Error", "Unsupported language: " ++ language, ""⟩, [])) ∧
    (∀ (env : SbxEnv) (language code uuid : String) (tc : TestCase) (e : String),
      (executeCode env language code tc.input uuid).1.error = some e →
      (executeTestCase env language code uuid tc).1.passed = false ∧
      (executeTestCase env language code uuid tc).1.actualOutput =
        e ++ (if (executeCode env language code tc.input uuid).1.stderr ≠ ""
              then ": " ++ (executeCode env language code tc.input uuid).1.stderr
              else "")) := by
  constructor
  · intro env language code input uuid h
    simp only [executeCode, h, Bool.not_false, eq_self_iff_true, if_true]
  · intro env language code uuid tc e h
    constructor <;> simp [executeTestCase, h]

/-- Witness for C10 at the concrete unsupported language `ruby`. -/
theorem c10_w :
    supportedLanguages.contains (lowerStr "ruby") = false ∧
    executeCode okEnv "ruby" "puts 1" "in" "u" =
      (⟨some "Runtime Error", "Unsupported language: ruby", ""⟩, []) ∧
    (executeTestCase okEnv "ruby" "puts 1" "u" ⟨"in", "out"⟩).1.passed = false := by
  refine ⟨by decide, ?_, ?_⟩
  · exact c10_error_handling.1 okEnv "ruby" "puts 1" "in" "u" (by decide)
  · exact (c10_error_handling.2 okEnv "ruby" "puts 1" "u" ⟨"in", "out"⟩
      "Runtime Error" (by decide)).1

/-! ## Claims C5 and C6 -/

/-- Claim C5 (amended): each test case of `POST /run` triggers its own
full sandbox invocation.  For C, C++, and Java code that contains
`public class Main`, the compiler runs once per test case (`n` times
for `n` cases — never a single shared compile), and on a
compile-failing submission every case is marked failed with the
identical compile-error annotation, each produced by its own compile
attempt.  A Java submission lacking `public class Main` is rejected by
the pre-check before the compiler ever runs: zero compiler invocations
across all `n` cases, every verdict failing with the fixed validation
message rather than compiler output. -/
theorem c5_per_case_compile :
    (∀ (env : SbxEnv) (lang code : String) (uuids : Nat → String)
      (cases : List TestCase) (i : Nat),
      lang = "c" ∨ lang = "cpp" ∨
        (lang = "java" ∧ strIncludes code "public class Main" = true) →
      compileCount (runTestCases env lang code uuids cases i).2 = cases.length ∧
      ((env.compile.hasErr || !(env.compile.status = some 0)) = true →
        ∀ v ∈ (runTestCases env lang code uuids cases i).1,
          v.passed = false ∧
          v.actualOutput = "Compilation Error" ++
            (if compileErrMsg env.compile ≠ ""
             then ": " ++ compileErrMsg env.compile else ""))) ∧
    (∀ (env : SbxEnv) (code : String) (uuids : Nat → String)
      (cases : List TestCase) (i : Nat),
      strIncludes code "public class Main" = false →
      compileCount (runTestCases env "java" code uuids cases i).2 = 0 ∧
      ∀ v ∈ (runTestCases env "java" code uuids cases i).1,
        v.passed = false ∧
        v.actualOutput =
          "Compilation Error: Java code must include \x22public class Main\x22") := by
  constructor
  · intro env lang code uuids cases i hl
    induction cases generalizing i with
    | nil => simp [runTestCases, compileCount]
    | cons tc rest ih =>
      have hcode : executeCode env lang code tc.input (uuids i) =
          executeCompiled env lang code tc.input (uuids i) := by
        rcases hl with h | h | ⟨h, hm⟩ <;> subst h <;> rfl
      constructor
      · simp only [runTestCases]
        rw [compileCount_append, executeTestCase_trace, hcode,
          compileCount_executeCompiled env lang code tc.input (uuids i) hl,
          (ih (i + 1)).1]
        simp only [List.length_cons]
        omega
      · intro hc v hv
        simp only [runTestCases] at hv
        rcases List.mem_cons.mp hv with hv | hv
        · subst hv
          have h1 := executeCompiled_compfail env lang code tc.input (uuids i) hl hc
          simp [executeTestCase, hcode, h1]
        · exact (ih (i + 1)).2 hc v hv
  · intro env code uuids cases i hm
    induction cases generalizing i with
    | nil => simp [runTestCases, compileCount]
    | cons tc rest ih =>
      have hres := executeCompiled_java_noMain env code tc.input (uuids i) hm
      have hcode : executeCode env "java" code tc.input (uuids i) =
          executeCompiled env "java" code tc.input (uuids i) := rfl
      constructor
      · simp only [runTestCases]
        rw [compileCount_append, executeTestCase_trace, hcode, hres,
          (ih (i + 1)).1]
        rfl
      · intro v hv
        simp only [runTestCases] at hv
        rcases List.mem_cons.mp hv with hv | hv
        · subst hv
          simp [executeTestCase, hcode, hres]
        · exact (ih (i + 1)).2 v hv

/-- Witness for C5's amended statement: a compile-failing two-case C
submission yields two compiler invocations with both verdicts carrying
the compiler's diagnostic, and a two-case Java submission without
`public class Main` yields zero compiler invocations with both
verdicts carrying the fixed validation message. -/
theorem c5_w :
    (("c" : String) = "c" ∨ ("c" : String) = "cpp" ∨
      (("c" : String) = "java" ∧
        strIncludes "int main(){}" "public class Main" = true)) ∧
    (compFailEnv.compile.hasErr || !(compFailEnv.compile.status = some 0)) = true ∧
    compileCount (runTestCases compFailEnv "c" "int main(){}" (fun _ => "u")
      [⟨"1", "out"⟩, ⟨"2", "out"⟩] 0).2 = 2 ∧
    (∀ v ∈ (runTestCases compFailEnv "c" "int main(){}" (fun _ => "u")
      [⟨"1", "out"⟩, ⟨"2", "out"⟩] 0).1,
      v.passed = false ∧ v.actualOutput = "Compilation Error: main.c:1: error") ∧
    strIncludes "class main" "public class Main" = false ∧
    compileCount (runTestCases okEnv "java" "class main" (fun _ => "u")
      [⟨"1", "out"⟩, ⟨"2", "out"⟩] 0).2 = 0 ∧
    ∀ v ∈ (runTestCases okEnv "java" "class main" (fun _ => "u")
      [⟨"1", "out"⟩, ⟨"2", "out"⟩] 0).1,
      v.passed = false ∧
      v.actualOutput =
        "Compilation Error: Java code must include \x22public class Main\x22" := by
  have H1 := c5_per_case_compile.1 compFailEnv "c" "int main(){}" (fun _ => "u")
    [⟨"1", "out"⟩, ⟨"2", "out"⟩] 0 (Or.inl rfl)
  have H2 := c5_per_case_compile.2 okEnv "class main" (fun _ => "u")
    [⟨"1", "out"⟩, ⟨"2", "out"⟩] 0 (by decide)
  refine ⟨Or.inl rfl, by decide, H1.1, ?_, by decide, H2.1, H2.2⟩
  intro v hv
  have := H1.2 (by decide) v hv
  simpa using this

/-- Claim C6 (amended): C and C++ invocations use uuid-unique source
and artifact file names inside the single shared temp directory, so
two distinct invocations never collide; Java always uses the fixed
paths `temp/Main.java` / `temp/Main.class`, so two concurrent Java
invocations do share paths.  Every registered artifact is
delete-attempted on every exit path (success, compile failure, runtime
failure, timeout; nothing is registered when the Java main-class check
rejects before any write), and deletion failures never change the
execution result. -/
theorem c6_cleanup_and_paths :
    (∀ u1 u2 : String, u1 ≠ u2 →
      sourcePathFor "c" u1 ≠ sourcePathFor "c" u2 ∧
      sourcePathFor "cpp" u1 ≠ sourcePathFor "cpp" u2 ∧
      artifactPathFor "c" u1 ≠ artifactPathFor "c" u2 ∧
      artifactPathFor "cpp" u1 ≠ artifactPathFor "cpp" u2) ∧
    (∀ (env : SbxEnv) (lang code input uuid : String),
      lang = "c" ∨ lang = "cpp" ∨ lang = "java" →
      deleteAttempts (executeCompiled env lang code input uuid).2 =
        (if lang = "java" && !(strIncludes code "public class Main") then []
         else filesToClean lang uuid)) ∧
    (∀ (env : SbxEnv) (df : String → Bool) (lang code input uuid : String),
      (executeCompiled { env with deleteFails := df } lang code input uuid).1 =
      (executeCompiled env lang code input uuid).1) := by
  refine ⟨?_, ?_, ?_⟩
  · intro u1 u2 hne
    refine ⟨fun h => hne ?_, fun h => hne ?_, fun h => hne ?_, fun h => hne ?_⟩ <;>
      [exact string_affix_inj (TEMP_DIR ++ "/") ".c" u1 u2
        (by simpa [sourcePathFor] using h);
       exact string_affix_inj (TEMP_DIR ++ "/") ".cpp" u1 u2
        (by simpa [sourcePathFor] using h);
       exact string_affix_inj (TEMP_DIR ++ "/") ".out" u1 u2
        (by simpa [artifactPathFor] using h);
       exact string_affix_inj (TEMP_DIR ++ "/") ".out" u1 u2
        (by simpa [artifactPathFor] using h)]
  · intro env lang code input uuid hl
    rcases hl with h | h | h <;> subst h <;>
      simp only [executeCompiled] <;>
      split_ifs <;>
      first
        | (dsimp only; rw [deleteAttempts_append, deleteAttempts_cleanup]; rfl)
        | simp_all [deleteAttempts, cleanupTrace]
  · intro env df lang code input uuid
    unfold executeCompiled
    split_ifs <;> rfl

/-- Witness for C6's amended statement: distinct uuids give distinct C
paths; for a successful C run the delete attempts are exactly the
registered source and artifact; a failing deletion leaves the result
unchanged. -/
theorem c6_w :
    sourcePathFor "c" "aaaa" ≠ sourcePathFor "c" "bbbb" ∧
    deleteAttempts (executeCompiled okEnv "c" "int main(){}" "x" "aaaa").2 =
      filesToClean "c" "aaaa" ∧
    (executeCompiled { okEnv with deleteFails := fun _ => true }
      "c" "int main(){}" "x" "aaaa").1 =
    (executeCompiled okEnv "c" "int main(){}" "x" "aaaa").1 := by
  refine ⟨(c6_cleanup_and_paths.1 "aaaa" "bbbb" (by decide)).1, ?_, ?_⟩
  · have := c6_cleanup_and_paths.2.1 okEnv "c" "int main(){}" "x" "aaaa" (Or.inl rfl)
    simpa using this
  · exact c6_cleanup_and_paths.2.2 okEnv (fun _ => true) "c" "int main(){}" "x" "aaaa"

/-! ## Room-lifecycle helper lemmas -/

theorem passCount_foldl_best (h : RSubmission) (t : List RSubmission) :
    passCount (t.foldl
      (fun best cur => if passCount cur > passCount best then cur else best) h) =
    t.foldl (fun a s => max a (passCount s)) (passCount h) := by
  induction t generalizing h with
  | nil => rfl
  | cons c cs ih =>
    simp only [List.foldl]
    rw [ih]
    congr 1
    by_cases hc : passCount h < passCount c
    · rw [if_pos hc]
      exact (Nat.max_eq_right hc.le).symm
    · rw [if_neg hc]
      exact (Nat.max_eq_left (Nat.not_lt.mp hc)).symm

theorem bestScore_eq_max (subs : List RSubmission) :
    bestScore subs = (subs.map passCount).foldl max 0 := by
  cases subs with
  | nil => rfl
  | cons h t =>
    simp only [bestScore, getBestSubmission, List.map, List.foldl]
    rw [passCount_foldl_best, List.foldl_map, Nat.zero_max]

/-- Claim C2: when winner resolution runs on a room with no recorded
winner and its trigger holds (time limit reached, or at least two
submissions on record), the room is finished with `matchDuration` equal
to the time limit if time expired and to the elapsed seconds since
`startedAt` otherwise; the participant whose best submission (the one
with the most passed hidden cases — `bestScore` equals that maximum)
strictly beats the other's best is recorded as `winnerId` with outcome
kind `partial`; equal best pass counts (including both zero) leave
`winnerId` null with outcome kind `timeout`. -/
theorem c2_resolution (room : Room) (t now : Nat)
    (hW : room.winnerId = none)
    (hS : room.startedAt = some t)
    (hT : t ≤ now)
    (hF : getTimeLimitForDifficulty (lowerStr room.problemDifficulty) ≤ (now - t) / 1000 ∨
          2 ≤ room.submissions.length) :
    (∀ subs, bestScore subs = (subs.map passCount).foldl max 0) ∧
    (checkAndDetermineWinner room now).1.status = .finished ∧
    (checkAndDetermineWinner room now).1.matchDuration =
      some (if getTimeLimitForDifficulty (lowerStr room.problemDifficulty) ≤ (now - t) / 1000
            then getTimeLimitForDifficulty (lowerStr room.problemDifficulty)
            else (now - t) / 1000) ∧
    (bestScore (oppSubs room) < bestScore (hostSubs room) →
      (checkAndDetermineWinner room now).1.winnerId = some room.hostUserId ∧
      (checkAndDetermineWinner room now).2 =
        [.matchFinished (some room.hostUserId) "partial"]) ∧
    (bestScore (hostSubs room) < bestScore (oppSubs room) →
      (checkAndDetermineWinner room now).1.winnerId = room.opponentUserId ∧
      (checkAndDetermineWinner room now).2 =
        [.matchFinished room.opponentUserId "partial"]) ∧
    (bestScore (hostSubs room) = bestScore (oppSubs room) →
      (checkAndDetermineWinner room now).1.winnerId = none ∧
      (checkAndDetermineWinner room now).2 = [.matchFinished none "timeout"]) := by
  have hel : cadwElapsed room now = (now - t) / 1000 := by
    rw [cadwElapsed, hS]
    rfl
  have hguard : (cadwShouldFinish room now && room.winnerId = none) = true := by
    simp only [cadwShouldFinish, cadwTimeLimit, hel, hW]
    rcases hF with h | h <;> simp [h]
  unfold checkAndDetermineWinner
  rw [if_pos hguard]
  dsimp only
  refine ⟨bestScore_eq_max, rfl, ?_, ?_, ?_, ?_⟩
  · simp only [cadwElapsed, cadwTimeLimit, hS, Option.getD_some, ge_iff_le]
  · intro hlt
    have hgt : bestScore (hostSubs room) > bestScore (oppSubs room) := hlt
    rw [if_pos hgt]
    exact ⟨rfl, rfl⟩
  · intro hlt
    have hng : ¬(bestScore (hostSubs room) > bestScore (oppSubs room)) := Nat.lt_asymm hlt
    have hgt : bestScore (oppSubs room) > bestScore (hostSubs room) := hlt
    rw [if_neg hng, if_pos hgt]
    refine ⟨?_, rfl⟩
    cases ho : room.opponentUserId with
    | none => exact hW
    | some o => rfl
  · intro heq
    have hng1 : ¬(bestScore (hostSubs room) > bestScore (oppSubs room)) := by
      rw [heq]; exact Nat.lt_irrefl _
    have hng2 : ¬(bestScore (oppSubs room) > bestScore (hostSubs room)) := by
      rw [heq]; exact Nat.lt_irrefl _
    rw [if_neg hng1, if_neg hng2]
    exact ⟨hW, rfl⟩

/-- Witness for C2 at a concrete room: host best passes 2 cases,
opponent best passes 1, both submitted, 10 seconds elapsed. -/
theorem c2_w :
    c2Room.winnerId = none ∧ c2Room.startedAt = some 0 ∧
    (getTimeLimitForDifficulty (lowerStr c2Room.problemDifficulty) ≤ (10000 - 0) / 1000 ∨
      2 ≤ c2Room.submissions.length) ∧
    bestScore (oppSubs c2Room) < bestScore (hostSubs c2Room) ∧
    (checkAndDetermineWinner c2Room 10000).1.status = RoomStatus.finished ∧
    (checkAndDetermineWinner c2Room 10000).1.matchDuration = some 10 ∧
    (checkAndDetermineWinner c2Room 10000).1.winnerId = some 10 ∧
    (checkAndDetermineWinner c2Room 10000).2 =
      [REvent.matchFinished (some 10) "partial"] := by
  have H := c2_resolution c2Room 0 10000 rfl rfl (by decide) (Or.inr (by decide))
  refine ⟨rfl, rfl, Or.inr (by decide), by decide, H.2.1, ?_, ?_, ?_⟩
  · rw [H.2.2.1]
    decide
  · exact (H.2.2.2.1 (by decide)).1
  · exact (H.2.2.2.1 (by decide)).2

theorem replCRLF_cons_ne (c : Char) (l : List Char) (h : ¬c = '\r') :
    replCRLF (c :: l) = c :: replCRLF l := by
  cases l with
  | nil => simp [replCRLF]
  | cons d t => simp [replCRLF, h]

theorem replCRLF_no_cr (l : List Char) (h : ∀ x ∈ l, ¬x = '\r') :
    replCRLF l = l := by
  induction l with
  | nil => rfl
  | cons c t ih =>
    rw [replCRLF_cons_ne c t (h c (List.mem_cons_self c t))]
    rw [ih (fun x hx => h x (List.mem_cons_of_mem c hx))]

theorem replCR_no_cr (l : List Char) (h : ∀ x ∈ l, ¬x = '\r') :
    replCR l = l := by
  induction l with
  | nil => rfl
  | cons c t ih =>
    simp only [replCR, List.map] at ih ⊢
    rw [if_neg (h c (List.mem_cons_self c t)), ih (fun x hx => h x (List.mem_cons_of_mem c hx))]

theorem mem_replCR_ne_cr (l : List Char) (x : Char) (hx : x ∈ replCR l) : ¬x = '\r' := by
  simp only [replCR, List.mem_map] at hx
  obtain ⟨c, _, hc⟩ := hx
  by_cases h : c = '\r'
  · rw [if_pos h] at hc
    rw [← hc]
    decide
  · rw [if_neg h] at hc
    rw [← hc]
    exact h

theorem endsWS_cons2 (a b : Char) (l : List Char) :
    endsWS (a :: b :: l) = endsWS (b :: l) := rfl

theorem noWsNl_cons2 (a b : Char) (l : List Char) :
    noWsNl (a :: b :: l) = ((!(isJsWS a && b = '\n')) && noWsNl (b :: l)) := rfl

theorem endsWS_append_one (l : List Char) (c : Char) :
    endsWS (l ++ [c]) = isJsWS c := by
  induction l with
  | nil => rfl
  | cons a t ih =>
    cases t with
    | nil => rfl
    | cons b s =>
      exact ih

theorem stripGo_cons_true (c : Char) (cs : List Char)
    (h : (isJsWS c && (stripGo cs).2) = true) :
    stripGo (c :: cs) = ((stripGo cs).1, true) := by
  simp only [stripGo]
  rw [h]
  simp

theorem stripGo_cons_false (c : Char) (cs : List Char)
    (h : (isJsWS c && (stripGo cs).2) = false) :
    stripGo (c :: cs) = (c :: (stripGo cs).1, decide (c = '\n')) := by
  simp only [stripGo]
  rw [h]
  simp

theorem stripGo_clean (l : List Char) :
    noWsNl (stripGo l).1 = true ∧
    endsWS (stripGo l).1 = false ∧
    ((stripGo l).1 = [] → (stripGo l).2 = true) ∧
    (∀ t, (stripGo l).1 = '\n' :: t → (stripGo l).2 = true) := by
  induction l with
  | nil => exact ⟨rfl, rfl, fun _ => rfl, fun _ _ => rfl⟩
  | cons c cs ih =>
    obtain ⟨ih1, ih2, ih3, ih4⟩ := ih
    by_cases hc : (isJsWS c && (stripGo cs).2) = true
    · rw [stripGo_cons_true c cs hc]
      exact ⟨ih1, ih2, fun _ => rfl, fun _ _ => rfl⟩
    · have hf : (isJsWS c && (stripGo cs).2) = false := by
        revert hc; cases (isJsWS c && (stripGo cs).2) <;> simp
      rw [stripGo_cons_false c cs hf]
      refine ⟨?_, ?_, ?_, ?_⟩
      · cases hp : (stripGo cs).1 with
        | nil => rfl
        | cons d t =>
          rw [noWsNl_cons2]
          rw [hp] at ih1
          by_cases hd : d = '\n'
          · have hp2 : (stripGo cs).2 = true := ih4 t (by rw [hp, hd])
            have hwc : isJsWS c = false := by
              rw [hp2, Bool.and_true] at hf
              exact hf
            simp [hwc, ih1]
          · simp [hd, ih1]
      · cases hp : (stripGo cs).1 with
        | nil =>
          have hp2 : (stripGo cs).2 = true := ih3 hp
          have hwc : isJsWS c = false := by
            rw [hp2, Bool.and_true] at hf
            exact hf
          exact hwc
        | cons d t =>
          rw [hp] at ih2
          exact ih2
      · intro h
        simp at h
      · intro t ht
        have hc' : c = '\n' := by
          simp only [List.cons.injEq] at ht
          exact ht.1
        rw [hc']
        rfl

theorem stripGo_fixed (l : List Char) (hn : noWsNl l = true) (he : endsWS l = false) :
    (stripGo l).1 = l ∧ ((stripGo l).2 = true ↔ (l = [] ∨ ∃ t, l = '\n' :: t)) := by
  induction l with
  | nil => exact ⟨rfl, by simp [stripGo]⟩
  | cons c cs ih =>
    cases cs with
    | nil =>
      have hwc : isJsWS c = false := he
      have hf : (isJsWS c && (stripGo ([] : List Char)).2) = false := by
        rw [hwc, Bool.false_and]
      rw [stripGo_cons_false c [] hf]
      refine ⟨rfl, ?_⟩
      constructor
      · intro h
        right
        exact ⟨[], by rw [of_decide_eq_true h]⟩
      · rintro (h | ⟨t, ht⟩)
        · simp at h
        · simp only [List.cons.injEq] at ht
          rw [ht.1]
          rfl
    | cons d t =>
      have hn' : noWsNl (d :: t) = true := by
        rw [noWsNl_cons2] at hn
        exact ((Bool.and_eq_true _ _).mp hn).2
      have ha : (isJsWS c && decide (d = '\n')) = false := by
        rw [noWsNl_cons2] at hn
        have h1 := ((Bool.and_eq_true _ _).mp hn).1
        revert h1; cases hx : (isJsWS c && decide (d = '\n')) <;> simp
      have he' : endsWS (d :: t) = false := he
      obtain ⟨ihA, ihB⟩ := ih hn' he'
      have hflag : ((stripGo (d :: t)).2 = true) ↔ (d = '\n') := by
        rw [ihB]
        constructor
        · rintro (h | ⟨t', ht'⟩)
          · simp at h
          · simp only [List.cons.injEq] at ht'
            exact ht'.1
        · intro h
          right
          exact ⟨t, by rw [h]⟩
      have hcond : (isJsWS c && (stripGo (d :: t)).2) = false := by
        by_cases hp : (stripGo (d :: t)).2 = true
        · have hd : d = '\n' := hflag.mp hp
          have hwc : isJsWS c = false := by
            rw [hd] at ha
            simpa using ha
          rw [hwc, Bool.false_and]
        · have hp0 : (stripGo (d :: t)).2 = false := by
            revert hp; cases (stripGo (d :: t)).2 <;> simp
          rw [hp0, Bool.and_false]
      rw [stripGo_cons_false c (d :: t) hcond]
      refine ⟨by rw [ihA], ?_⟩
      constructor
      · intro h
        right
        exact ⟨d :: t, by rw [of_decide_eq_true h]⟩
      · rintro (h | ⟨t', ht'⟩)
        · simp at h
        · simp only [List.cons.injEq] at ht'
          rw [ht'.1]
          rfl

theorem mem_stripGo {x : Char} : ∀ l : List Char, x ∈ (stripGo l).1 → x ∈ l := by
  intro l
  induction l with
  | nil => intro h; simpa [stripGo] using h
  | cons c cs ih =>
    intro h
    by_cases hc : (isJsWS c && (stripGo cs).2) = true
    · rw [stripGo_cons_true c cs hc] at h
      exact List.mem_cons_of_mem c (ih h)
    · have hf : (isJsWS c && (stripGo cs).2) = false := by
        revert hc; cases (isJsWS c && (stripGo cs).2) <;> simp
      rw [stripGo_cons_false c cs hf] at h
      rcases List.mem_cons.mp h with h | h
      · rw [h]; exact List.mem_cons_self c cs
      · exact List.mem_cons_of_mem c (ih h)

theorem mem_dropWhile {x : Char} (p : Char → Bool) :
    ∀ l : List Char, x ∈ List.dropWhile p l → x ∈ l := by
  intro l
  induction l with
  | nil => intro h; simpa using h
  | cons c cs ih =>
    intro h
    rw [List.dropWhile_cons] at h
    by_cases hpc : p c = true
    · rw [if_pos hpc] at h
      exact List.mem_cons_of_mem c (ih h)
    · rw [if_neg hpc] at h
      exact h

theorem mem_trimRight {x : Char} (l : List Char) (h : x ∈ trimRight l) : x ∈ l := by
  rw [trimRight] at h
  rw [List.mem_reverse] at h
  have hm := mem_dropWhile isJsWS l.reverse h
  rwa [List.mem_reverse] at hm

theorem mem_dropTrailNl {x : Char} (l : List Char) (h : x ∈ dropTrailNl l) : x ∈ l := by
  rw [dropTrailNl] at h
  rw [List.mem_reverse] at h
  have hm := mem_dropWhile _ l.reverse h
  rwa [List.mem_reverse] at hm

theorem headOk_trimLeft (l : List Char) : headOkWS (trimLeft l) := by
  induction l with
  | nil => intro c cs h; simp [trimLeft] at h
  | cons a t ih =>
    by_cases ha : isJsWS a = true
    · intro c cs h
      rw [trimLeft, List.dropWhile_cons, if_pos ha] at h
      exact ih c cs h
    · intro c cs h
      rw [trimLeft, List.dropWhile_cons, if_neg ha] at h
      simp only [List.cons.injEq] at h
      rw [← h.1]
      revert ha; cases isJsWS a <;> simp

theorem trimRight_decomp (l : List Char) : ∃ s, l = trimRight l ++ s := by
  refine ⟨(l.reverse.takeWhile isJsWS).reverse, ?_⟩
  rw [trimRight, ← List.reverse_append, List.takeWhile_append_dropWhile,
    List.reverse_reverse]

theorem dropTrailNl_decomp (l : List Char) :
    ∃ s, l = dropTrailNl l ++ s := by
  refine ⟨(l.reverse.takeWhile (fun c => c = '\n')).reverse, ?_⟩
  rw [dropTrailNl, ← List.reverse_append, List.takeWhile_append_dropWhile,
    List.reverse_reverse]

theorem headOk_trimRight (l : List Char) (h : headOkWS l) : headOkWS (trimRight l) := by
  intro c cs hc
  obtain ⟨s, hs⟩ := trimRight_decomp l
  rw [hc] at hs
  exact h c (cs ++ s) (by rw [hs, List.cons_append])

theorem headOk_dropTrailNl (l : List Char) (h : headOkWS l) :
    headOkWS (dropTrailNl l) := by
  intro c cs hc
  obtain ⟨s, hs⟩ := dropTrailNl_decomp l
  rw [hc] at hs
  exact h c (cs ++ s) (by rw [hs, List.cons_append])

theorem ws_cr : isJsWS '\r' = true := by decide

theorem headOk_replCRLF (l : List Char) (h : headOkWS l) : headOkWS (replCRLF l) := by
  cases l with
  | nil => intro c cs hc; simp [replCRLF] at hc
  | cons a t =>
    have ha : isJsWS a = false := h a t rfl
    have har : ¬a = '\r' := by
      intro hh
      rw [hh, ws_cr] at ha
      exact absurd ha (by decide)
    intro c cs hc
    rw [replCRLF_cons_ne a t har] at hc
    simp only [List.cons.injEq] at hc
    rw [← hc.1]
    exact ha

theorem headOk_replCR (l : List Char) (h : headOkWS l) : headOkWS (replCR l) := by
  cases l with
  | nil => intro c cs hc; simp [replCR] at hc
  | cons a t =>
    have ha : isJsWS a = false := h a t rfl
    have har : ¬a = '\r' := by
      intro hh
      rw [hh, ws_cr] at ha
      exact absurd ha (by decide)
    intro c cs hc
    simp only [replCR, List.map, if_neg har] at hc
    simp only [List.cons.injEq] at hc
    rw [← hc.1]
    exact ha

theorem headOk_stripGo (l : List Char) (h : headOkWS l) : headOkWS (stripTrailWS l) := by
  cases l with
  | nil => intro c cs hc; simp [stripTrailWS, stripGo] at hc
  | cons a t =>
    have ha : isJsWS a = false := h a t rfl
    have hf : (isJsWS a && (stripGo t).2) = false := by
      rw [ha, Bool.false_and]
    intro c cs hc
    rw [stripTrailWS, stripGo_cons_false a t hf] at hc
    simp only [List.cons.injEq] at hc
    rw [← hc.1]
    exact ha

theorem trimLeft_of_headOk (l : List Char) (h : headOkWS l) : trimLeft l = l := by
  cases l with
  | nil => rfl
  | cons a t =>
    rw [trimLeft, List.dropWhile_cons, if_neg]
    rw [h a t rfl]
    simp

theorem trimRight_of_not_endsWS (l : List Char) (h : endsWS l = false) :
    trimRight l = l := by
  cases hr : l.reverse with
  | nil =>
    have h0 : l = [] := by
      rw [← List.reverse_reverse l, hr]
      rfl
    rw [h0]
    rfl
  | cons c t =>
    have hl : l = t.reverse ++ [c] := by
      rw [← List.reverse_reverse l, hr, List.reverse_cons]
    have hc : isJsWS c = false := by
      rw [hl, endsWS_append_one] at h
      exact h
    rw [trimRight, hr, List.dropWhile_cons, if_neg (by rw [hc]; simp)]
    rw [← hr, List.reverse_reverse]

theorem dropTrailNl_of_not_endsWS (l : List Char) (h : endsWS l = false) :
    dropTrailNl l = l := by
  cases hr : l.reverse with
  | nil =>
    have h0 : l = [] := by
      rw [← List.reverse_reverse l, hr]
      rfl
    rw [h0]
    rfl
  | cons c t =>
    have hl : l = t.reverse ++ [c] := by
      rw [← List.reverse_reverse l, hr, List.reverse_cons]
    have hc : isJsWS c = false := by
      rw [hl, endsWS_append_one] at h
      exact h
    have hcn : ¬c = '\n' := by
      intro hh
      rw [hh] at hc
      exact absurd hc (by decide)
    rw [dropTrailNl, hr, List.dropWhile_cons, if_neg (by simp [hcn])]
    rw [← hr, List.reverse_reverse]

theorem preprocessChars_clean (l : List Char) :
    noWsNl (preprocessChars l) = true ∧
    endsWS (preprocessChars l) = false ∧
    headOkWS (preprocessChars l) ∧
    noCR (preprocessChars l) := by
  refine ⟨(stripGo_clean _).1, (stripGo_clean _).2.1, ?_, ?_⟩
  · apply headOk_stripGo
    apply headOk_dropTrailNl
    apply headOk_replCR
    apply headOk_replCRLF
    apply headOk_trimRight
    exact headOk_trimLeft l
  · intro x hx
    have h1 := mem_stripGo _ hx
    have h2 := mem_dropTrailNl _ h1
    exact mem_replCR_ne_cr _ x h2

theorem preprocessChars_fixed (r : List Char)
    (h1 : noWsNl r = true) (h2 : endsWS r = false)
    (h3 : headOkWS r) (h4 : noCR r) :
    preprocessChars r = r := by
  rw [preprocessChars, jsTrim, trimLeft_of_headOk r h3, trimRight_of_not_endsWS r h2,
    replCRLF_no_cr r h4, replCR_no_cr r h4, dropTrailNl_of_not_endsWS r h2]
  exact (stripGo_fixed r h1 h2).1

theorem preprocessChars_idem (l : List Char) :
    preprocessChars (preprocessChars l) = preprocessChars l := by
  obtain ⟨h1, h2, h3, h4⟩ := preprocessChars_clean l
  exact preprocessChars_fixed _ h1 h2 h3 h4

theorem preprocessOutput_idem (s : String) :
    preprocessOutput (preprocessOutput s) = preprocessOutput s := by
  by_cases hs : s = ""
  · rw [hs]
    rfl
  · have hinner : preprocessOutput s = ⟨preprocessChars s.data⟩ := by
      rw [preprocessOutput, if_neg hs]
    rw [hinner]
    by_cases hr : (⟨preprocessChars s.data⟩ : String) = ""
    · rw [hr]
      rfl
    · rw [preprocessOutput, if_neg hr]
      exact congrArg String.mk (preprocessChars_idem s.data)

/-- C7: output normalization is idempotent
(`preprocessOutput (preprocessOutput s) = preprocessOutput s` for every
string), and whenever execution produced no structured error, a test
case passes exactly when the normalized actual output equals the
normalized expected output — plain string equality, with no numeric
tolerance and no case folding. -/
theorem c7_round_trip_and_exact_compare :
    (∀ s : String, preprocessOutput (preprocessOutput s) = preprocessOutput s) ∧
    ∀ (env : SbxEnv) (language code uuid : String) (tc : TestCase),
      ((executeCode env language code tc.input uuid).1).error = none →
      (((executeTestCase env language code uuid tc).1).passed = true ↔
        preprocessOutput ((executeCode env language code tc.input uuid).1).stdout =
          preprocessOutput tc.expectedOutput) := by
  refine ⟨preprocessOutput_idem, ?_⟩
  intro env language code uuid tc h
  simp only [executeTestCase, h]
  exact beq_iff_eq

theorem c7_w :
    preprocessOutput (preprocessOutput "  a \r\nb  \n\n") = preprocessOutput "  a \r\nb  \n\n" ∧
    (((executeTestCase okEnv "python" "print(1)" "u0" ⟨"", "out"⟩).1).passed = true ↔
      preprocessOutput ((executeCode okEnv "python" "print(1)" "" "u0").1).stdout =
        preprocessOutput "out") :=
  ⟨c7_round_trip_and_exact_compare.1 _,
   c7_round_trip_and_exact_compare.2 okEnv "python" "print(1)" "u0" ⟨"", "out"⟩ (by decide)⟩

end Skypad